import Mathlib

/-!
Shallow embedding of `scripts/scrape_politifact_all.py` (mr-devs/politifact-scraper).

The script's effectful pieces are modelled by explicit parameters:
the network is a `transport` function from the attempt index to an optional
response body, listing-page fetches are a function from the page number to an
optional list of extracted links, and the per-link detail fetch plus record
extraction is a function from page and link to an optional payload (failure of
either step raises in the script and is caught by the surrounding try block,
so a single `Option` models both). Buffered file IO (CPython text handles) is
modelled by an explicit buffer/storage pair.
-/

namespace Politifact

/-! ## Fetcher: `fetch_url` (lines 47-94)

The Python loop is `for attempt in range(max_retries)`: on success the
response is returned; on a caught exception, if `attempt < max_retries - 1`
the script sleeps `retry_delay * attempt` seconds and continues, otherwise it
returns `None`.  If `max_retries <= 0` the range is empty and the function
falls through, returning `None`.  `FetchTrace` records the returned value, the
number of attempts actually performed, and the list of sleep durations in the
order they were inserted. -/

structure FetchTrace where
  result : Option String
  attempts : Nat
  delays : List Int
deriving Repr, DecidableEq

/-- One execution of the body of `fetch_url`'s retry loop and its
continuation: `r` is the number of loop iterations remaining
(`max_retries - attempt`), `attempt` the current 0-based index. -/
def fetch_go (transport : Nat → Option String) (retry_delay max_retries : Int) :
    Nat → Nat → FetchTrace
  | 0, _ => ⟨none, 0, []⟩
  | r + 1, attempt =>
    match transport attempt with
    | some body => ⟨some body, 1, []⟩
    | none =>
      if (attempt : Int) < max_retries - 1 then
        let t := fetch_go transport retry_delay max_retries r (attempt + 1)
        ⟨t.result, t.attempts + 1, retry_delay * (attempt : Int) :: t.delays⟩
      else
        ⟨none, 1, []⟩

/-- `fetch_url(url, max_retries, retry_delay)` under a given transport: runs
the retry loop from attempt 0 with `range(max_retries)` iterations
(`Int.toNat` gives the empty range for non-positive `max_retries`, as Python's
`range` does). -/
def fetch_url (transport : Nat → Option String) (retry_delay max_retries : Int) :
    FetchTrace :=
  fetch_go transport retry_delay max_retries max_retries.toNat 0

/-! ## Boundary Finder: `find_max_page` (lines 119-154)

`no_results` starts `True`; while `no_results and max_page > 0` the script
first decrements `max_page`, then fetches page `max_page` and sets
`no_results` from its body, finally returning `max_page`.  `has_results p` is
the negation of `find_no_results` on the fetched body of page `p`. -/

def find_max_page (has_results : Nat → Bool) : Nat → Nat
  | 0 => 0
  | m + 1 => if has_results m then m else find_max_page has_results m

/-- The sequence of page numbers the probe fetches, in order. -/
def probe_pages (has_results : Nat → Bool) : Nat → List Nat
  | 0 => []
  | m + 1 => m :: (if has_results m then [] else probe_pages has_results m)

/-! ## Buffered append files

The cache file is opened once, `with open(FC_CACHE, "a") as f:`, held open
across the whole main loop, and written with `f.write(...)` (line 267).
CPython text handles buffer writes in process; data reaches stable storage
when the handle is flushed or closed (the `with` block closes it on exit).
`AppendFile` makes the buffer explicit: `write` appends to the in-process
buffer, `flush` moves the buffer to storage, `close` flushes. -/

structure AppendFile (α : Type) where
  buffer : List α
  storage : List α
deriving Repr, DecidableEq

def AppendFile.write {α : Type} (f : AppendFile α) (x : α) : AppendFile α :=
  ⟨f.buffer ++ [x], f.storage⟩

def AppendFile.flush {α : Type} (f : AppendFile α) : AppendFile α :=
  ⟨[], f.storage ++ f.buffer⟩

def AppendFile.close {α : Type} (f : AppendFile α) : AppendFile α :=
  f.flush

/-! ## Data model of the main script (lines 198-279)

A cached or scraped fact check is an opaque payload plus the listing page it
was found on (`fc_dict["page"] = page_num`, line 264). -/

structure FcDict where
  payload : String
  page : Nat
deriving Repr, DecidableEq

/-- Line 267, `f.write(f"{json.dumps(fc_dict)}\n")`: a plain buffered write of
one record to the open cache handle. -/
def checkpoint_append (f : AppendFile FcDict) (fc : FcDict) : AppendFile FcDict :=
  f.write fc

/-- Lines 202-209: `page_num = 1`, then for every cached line
`page_num = max(page_num, fc_dict["page"])`. -/
def resume_point (cache : List FcDict) : Nat :=
  cache.foldl (fun acc fc => max acc fc.page) 1

/-! ## Compactor: `fc_df.drop_duplicates(inplace=True)` (line 274)

pandas `drop_duplicates` with default arguments compares rows on all columns
and keeps the first occurrence of each duplicate group, preserving row
order. -/

/-- The traversal underlying `drop_duplicates`: keep an element unless an
equal one was already seen. -/
def dedup_keep_first {α : Type} [DecidableEq α] : List α → List α → List α
  | [], _ => []
  | x :: xs, seen =>
    if x ∈ seen then dedup_keep_first xs seen
    else x :: dedup_keep_first xs (x :: seen)

def drop_duplicates {α : Type} [DecidableEq α] (l : List α) : List α :=
  dedup_keep_first l []

/-- Formalised from the spec's words for comparison with `drop_duplicates`:
the subsequence of first occurrences in original order — the head of a list
is a first occurrence, every later occurrence of it is dropped, and the rest
is handled recursively. -/
def firstOccurrences {α : Type} [DecidableEq α] : List α → List α
  | [] => []
  | x :: xs => x :: firstOccurrences (xs.filter fun y => !decide (y = x))
  termination_by l => l.length
  decreasing_by
    simp only [List.length_cons]
    exact Nat.lt_succ_of_le (List.length_filter_le _ _)

/-! ## Crawl Driver: the `__main__` block (lines 198-279)

State carried by the loop: the in-memory `fact_checks` list (seeded with the
cache), the open cache file handle, the missed-links file contents, and the
list of listing pages for which a fetch was attempted. -/

structure RunState where
  fact_checks : List FcDict
  cacheFile : AppendFile FcDict
  missed : List String
  pages_fetched : List Nat
deriving Repr, DecidableEq

/-- Lines 236-269, one iteration of the per-link loop: `proc page link` is
the detail fetch followed by `PolitiFactCheck` extraction; any exception in
that try block appends the link to the missed file and continues, success
writes the record (payload plus page) to the cache file and appends it to
`fact_checks`. -/
def process_link (proc : Nat → String → Option String) (page : Nat)
    (st : RunState) (link : String) : RunState :=
  match proc page link with
  | none => { st with missed := st.missed ++ [link] }
  | some payload =>
    { st with
      cacheFile := checkpoint_append st.cacheFile ⟨payload, page⟩,
      fact_checks := st.fact_checks ++ [⟨payload, page⟩] }

/-- Lines 219-269, the main loop over its remaining page numbers: fetch the
listing page (`listing page` is `fetch_url` composed with
`extract_statement_links`; `none` is a fetch failure); on failure `break`
(the remaining pages are dropped), otherwise process every link and move to
the next page. -/
def run_pages (listing : Nat → Option (List String))
    (proc : Nat → String → Option String) : RunState → List Nat → RunState
  | st, [] => st
  | st, page :: rest =>
    let st1 : RunState := { st with pages_fetched := st.pages_fetched ++ [page] }
    match listing page with
    | none => st1
    | some links => run_pages listing proc (links.foldl (process_link proc page) st1) rest

/-- The whole `__main__` run after boundary resolution: `fact_checks` is
seeded with the cache (lines 203-208), the cache file is (re)opened for
append, and the loop iterates `for page_num in range(1, max_page + 1)`
(line 219). -/
def run_main (cache : List FcDict) (listing : Nat → Option (List String))
    (proc : Nat → String → Option String) (max_page : Nat) : RunState :=
  run_pages listing proc ⟨cache, ⟨[], []⟩, [], []⟩ (List.range' 1 max_page)

/-- Lines 271-275: build the frame from all accumulated records, drop
duplicate rows, write the parquet file. -/
def run_output (cache : List FcDict) (listing : Nat → Option (List String))
    (proc : Nat → String → Option String) (max_page : Nat) : List FcDict :=
  drop_duplicates (run_main cache listing proc max_page).fact_checks

/-! ## Concrete collaborator instances used to exercise the driver -/

/-- A listing where page 1 has two links and page 2 is unreachable. -/
def exListing : Nat → Option (List String) :=
  fun q => if q = 2 then none else if q = 1 then some ["x", "y"] else some []

/-- A detail fetch/extraction that succeeds only on link "x". -/
def exProc : Nat → String → Option String :=
  fun _ l => if l = "x" then some "px" else none

/-- A listing whose page 1 carries five links and whose other pages are
reachable and empty. -/
def ex5Listing : Nat → Option (List String) :=
  fun q => if q = 1 then some ["a", "b", "c", "d", "e"] else some []

/-- A detail fetch/extraction that fails exactly on link "c". -/
def ex5Proc : Nat → String → Option String :=
  fun _ l => if l = "c" then none else some l

/-- A fresh run state: no cache, empty open file, nothing missed or
fetched. -/
def exSt : RunState := ⟨[], ⟨[], []⟩, [], []⟩

/-! ## Fetcher lemmas -/

/-- One unfolding of the retry loop body. -/
theorem fetch_go_succ (transport : Nat → Option String) (d m : Int) (r attempt : Nat) :
    fetch_go transport d m (r + 1) attempt =
      match transport attempt with
      | some body => ⟨some body, 1, []⟩
      | none =>
        if (attempt : Int) < m - 1 then
          let t := fetch_go transport d m r (attempt + 1)
          ⟨t.result, t.attempts + 1, d * (attempt : Int) :: t.delays⟩
        else ⟨none, 1, []⟩ := rfl

/-- Running the retry loop when every attempt fails: with `r` iterations left
and the loop invariant `attempt + r = max_retries`, the loop performs exactly
`r` more attempts, returns `none`, and sleeps `retry_delay * a` after each
failed attempt `a` except the last. -/
theorem fetch_go_allfail (transport : Nat → Option String) (d m : Int)
    (hT : ∀ n, transport n = none) :
    ∀ r attempt : Nat, 1 ≤ r → (attempt : Int) + r = m →
      fetch_go transport d m r attempt =
        ⟨none, r, (List.range' attempt (r - 1)).map (fun a : Nat => d * (a : Int))⟩ := by
  intro r
  induction r with
  | zero => intro attempt h1 _; omega
  | succ r ih =>
    intro attempt _ hsum
    rw [fetch_go_succ]
    simp only [hT]
    cases r with
    | zero =>
      have hc : ¬ ((attempt : Int) < m - 1) := by push_cast at hsum; omega
      simp [hc]
    | succ r' =>
      have hc : (attempt : Int) < m - 1 := by push_cast at hsum; omega
      have hih := ih (attempt + 1) (by omega) (by push_cast at hsum ⊢; omega)
      rw [if_pos hc]
      simp only [hih]
      simp [List.range'_succ]

/-- `fetch_url` under an always-failing transport with at least one allowed
attempt: `max_retries` attempts, no result, and the recorded sleeps are
`retry_delay * a` for `a = 0, ..., max_retries - 2`. -/
theorem fetch_url_allfail (transport : Nat → Option String) (d m : Int)
    (hT : ∀ n, transport n = none) (hm : 1 ≤ m) :
    fetch_url transport d m =
      ⟨none, m.toNat, (List.range (m.toNat - 1)).map (fun a : Nat => d * (a : Int))⟩ := by
  rw [fetch_url,
    fetch_go_allfail transport d m hT m.toNat 0 (by omega) (by push_cast; omega),
    List.range_eq_range']

/-! ## Boundary Finder lemmas -/

/-- The linear descending probe is exact: if `has_results` is downward closed
and `P` is the true boundary (`has_results P`, not `has_results (P+1)`) with
`P < U`, the probe started at `U` returns `P`. -/
theorem find_max_page_exact (h : Nat → Bool)
    (mono : ∀ a b : Nat, a ≤ b → h b = true → h a = true) :
    ∀ U P : Nat, h P = true → h (P + 1) = false → P < U → find_max_page h U = P := by
  intro U
  induction U with
  | zero => intro P _ _ hPU; omega
  | succ m ih =>
    intro P hP hP1 hPU
    by_cases hm : h m = true
    · have hmP : m ≤ P := by
        by_contra hc
        push_neg at hc
        have := mono (P + 1) m (by omega) hm
        simp [hP1] at this
      have hPm : P = m := by omega
      simp [find_max_page, hm, hPm]
    · have hb : h m = false := by simpa using hm
      simp only [find_max_page, hb, Bool.false_eq_true, if_false]
      have hne : P ≠ m := fun he => by simp [he, hb] at hP
      exact ih P hP hP1 (by omega)

/-- If no page from 1 to `U` has results, the probe runs off the bottom and
returns 0. -/
theorem find_max_page_none (h : Nat → Bool) :
    ∀ U : Nat, (∀ p : Nat, 1 ≤ p → p ≤ U → h p = false) → find_max_page h U = 0 := by
  intro U
  induction U with
  | zero => intro _; rfl
  | succ m ih =>
    intro hall
    rcases Nat.eq_zero_or_pos m with hm0 | hmpos
    · subst hm0
      show find_max_page h 1 = 0
      cases hh : h 0 <;> simp [find_max_page, hh]
    · have hm : h m = false := hall m (by omega) (by omega)
      simp only [find_max_page, hm, Bool.false_eq_true, if_false]
      exact ih (fun p h1 h2 => hall p h1 (by omega))

/-! ## Checkpoint file lemmas -/

/-- Folding the checkpoint writes over an open handle accumulates everything
in the in-process buffer and touches storage not at all. -/
theorem foldl_checkpoint_append (recs : List FcDict) :
    ∀ f : AppendFile FcDict,
      recs.foldl checkpoint_append f = ⟨f.buffer ++ recs, f.storage⟩ := by
  induction recs with
  | nil => intro f; simp
  | cons r rs ih =>
    intro f
    rw [List.foldl_cons, ih]
    simp [checkpoint_append, AppendFile.write]

/-! ## Compactor lemmas -/

/-- The traversal behind `drop_duplicates`, run with `seen` already seen,
computes the first occurrences of the input purged of `seen`. -/
theorem dedup_keep_first_eq {α : Type} [DecidableEq α] (xs : List α) :
    ∀ seen : List α,
      dedup_keep_first xs seen =
        firstOccurrences (xs.filter fun y => !decide (y ∈ seen)) := by
  induction xs with
  | nil => intro seen; simp [dedup_keep_first, firstOccurrences]
  | cons x xs ih =>
    intro seen
    rw [List.filter_cons]
    by_cases hx : x ∈ seen
    · simp only [hx, decide_True, Bool.not_true, Bool.false_eq_true, if_false]
      simp only [dedup_keep_first, hx, if_true]
      exact ih seen
    · simp only [hx, decide_False, Bool.not_false, if_true]
      simp only [dedup_keep_first, hx, if_false]
      rw [firstOccurrences]
      congr 1
      rw [List.filter_filter, ih (x :: seen)]
      congr 1
      apply List.filter_congr
      intro y _
      simp [List.mem_cons, Bool.decide_or, Bool.not_or, Bool.and_comm]

/-! ## Crawl Driver lemmas -/

/-- One unfolding of the main loop. -/
theorem run_pages_cons (listing : Nat → Option (List String))
    (proc : Nat → String → Option String) (st : RunState) (page : Nat) (rest : List Nat) :
    run_pages listing proc st (page :: rest) =
      match listing page with
      | none => { st with pages_fetched := st.pages_fetched ++ [page] }
      | some links =>
          run_pages listing proc
            (links.foldl (process_link proc page)
              { st with pages_fetched := st.pages_fetched ++ [page] }) rest := rfl

theorem process_link_none (proc : Nat → String → Option String) (page : Nat)
    (st : RunState) (link : String) (h : proc page link = none) :
    process_link proc page st link = { st with missed := st.missed ++ [link] } := by
  simp [process_link, h]

theorem process_link_some (proc : Nat → String → Option String) (page : Nat)
    (st : RunState) (link : String) (payload : String) (h : proc page link = some payload) :
    process_link proc page st link =
      { st with cacheFile := checkpoint_append st.cacheFile ⟨payload, page⟩,
                fact_checks := st.fact_checks ++ [⟨payload, page⟩] } := by
  simp [process_link, h]

/-- Processing the links of one page appends one record per successful link,
one missed entry per failed link, leaves the fetched-pages trace alone, and
only ever extends `fact_checks`. -/
theorem foldl_process_link (proc : Nat → String → Option String) (page : Nat) :
    ∀ (links : List String) (st : RunState),
      (links.foldl (process_link proc page) st).fact_checks.length
          = st.fact_checks.length + (links.countP fun l => (proc page l).isSome) ∧
      (links.foldl (process_link proc page) st).missed.length
          = st.missed.length + (links.countP fun l => (proc page l).isNone) ∧
      (links.foldl (process_link proc page) st).pages_fetched = st.pages_fetched ∧
      (∃ t, (links.foldl (process_link proc page) st).fact_checks
              = st.fact_checks ++ t) := by
  intro links
  induction links with
  | nil => intro st; simp
  | cons l ls ih =>
    intro st
    rw [List.foldl_cons]
    cases hpl : proc page l with
    | none =>
      rw [process_link_none proc page st l hpl]
      obtain ⟨i1, i2, i3, t, i4⟩ := ih { st with missed := st.missed ++ [l] }
      refine ⟨?_, ?_, i3, ⟨t, i4⟩⟩
      · rw [i1]; simp [List.countP_cons, hpl]
      · rw [i2]; simp [List.countP_cons, hpl]; omega
    | some payload =>
      rw [process_link_some proc page st l payload hpl]
      obtain ⟨i1, i2, i3, t, i4⟩ :=
        ih { st with cacheFile := checkpoint_append st.cacheFile ⟨payload, page⟩,
                     fact_checks := st.fact_checks ++ [⟨payload, page⟩] }
      refine ⟨?_, ?_, i3, ?_⟩
      · rw [i1]; simp [List.countP_cons, hpl]; omega
      · rw [i2]; simp [List.countP_cons, hpl]
      · exact ⟨⟨payload, page⟩ :: t, by rw [i4]; simp⟩

/-- Every link either succeeds or fails, so the two counts add up to the
number of links on the page. -/
theorem countP_isSome_isNone (proc : Nat → String → Option String) (page : Nat) :
    ∀ links : List String,
      (links.countP fun l => (proc page l).isSome)
        + (links.countP fun l => (proc page l).isNone) = links.length := by
  intro links
  induction links with
  | nil => rfl
  | cons l ls ih =>
    cases hpl : proc page l <;> simp [List.countP_cons, hpl] <;> omega

/-- The loop never forgets a page it already fetched. -/
theorem run_pages_fetched_mono (listing : Nat → Option (List String))
    (proc : Nat → String → Option String) :
    ∀ (pages : List Nat) (st : RunState) (x : Nat),
      x ∈ st.pages_fetched → x ∈ (run_pages listing proc st pages).pages_fetched := by
  intro pages
  induction pages with
  | nil => intro st x hx; exact hx
  | cons p ps ih =>
    intro st x hx
    rw [run_pages_cons]
    cases hp : listing p with
    | none => exact List.mem_append_left _ hx
    | some links =>
      apply ih
      rw [(foldl_process_link proc p links _).2.2.1]
      exact List.mem_append_left _ hx

/-- The loop runs through a block of reachable pages and continues. -/
theorem run_pages_append (listing : Nat → Option (List String))
    (proc : Nat → String → Option String) :
    ∀ (l1 l2 : List Nat) (st : RunState), (∀ q ∈ l1, (listing q).isSome = true) →
      run_pages listing proc st (l1 ++ l2)
        = run_pages listing proc (run_pages listing proc st l1) l2 := by
  intro l1
  induction l1 with
  | nil => intro l2 st _; rfl
  | cons p ps ih =>
    intro l2 st hall
    obtain ⟨links, hp⟩ := Option.isSome_iff_exists.mp (hall p (List.mem_cons_self p ps))
    rw [List.cons_append, run_pages_cons, run_pages_cons]
    simp only [hp]
    exact ih l2 _ (fun q hq => hall q (List.mem_cons_of_mem p hq))

/-- Over a block of reachable pages the loop fetches each page exactly once,
in order. -/
theorem run_pages_all_some (listing : Nat → Option (List String))
    (proc : Nat → String → Option String) :
    ∀ (pages : List Nat) (st : RunState), (∀ q ∈ pages, (listing q).isSome = true) →
      (run_pages listing proc st pages).pages_fetched = st.pages_fetched ++ pages := by
  intro pages
  induction pages with
  | nil => intro st _; simp [run_pages]
  | cons p ps ih =>
    intro st hall
    obtain ⟨links, hp⟩ := Option.isSome_iff_exists.mp (hall p (List.mem_cons_self p ps))
    rw [run_pages_cons]
    simp only [hp]
    rw [ih _ (fun q hq => hall q (List.mem_cons_of_mem p hq))]
    rw [(foldl_process_link proc p links _).2.2.1]
    simp

/-- An unreachable page stops the loop at once: the failed page is recorded
as fetched and the remaining pages are dropped. -/
theorem run_pages_break (listing : Nat → Option (List String))
    (proc : Nat → String → Option String) (st : RunState) (page : Nat)
    (rest : List Nat) (hp : listing page = none) :
    run_pages listing proc st (page :: rest)
      = { st with pages_fetched := st.pages_fetched ++ [page] } := by
  rw [run_pages_cons]
  simp only [hp]

/-- The loop only ever extends the accumulated `fact_checks`. -/
theorem run_pages_fact_checks_extend (listing : Nat → Option (List String))
    (proc : Nat → String → Option String) :
    ∀ (pages : List Nat) (st : RunState),
      ∃ t, (run_pages listing proc st pages).fact_checks = st.fact_checks ++ t := by
  intro pages
  induction pages with
  | nil => intro st; exact ⟨[], by simp [run_pages]⟩
  | cons p ps ih =>
    intro st
    rw [run_pages_cons]
    cases hp : listing p with
    | none => exact ⟨[], by simp⟩
    | some links =>
      obtain ⟨t1, h1⟩ := (foldl_process_link proc p links
        { st with pages_fetched := st.pages_fetched ++ [p] }).2.2.2
      obtain ⟨t2, h2⟩ := ih (links.foldl (process_link proc p)
        { st with pages_fetched := st.pages_fetched ++ [p] })
      exact ⟨t1 ++ t2, by rw [h2, h1]; simp⟩

/-! ## Claims -/

/-- Claim C2, counterexample: with `retry_delay = 2`, `max_retries = 3` and
every attempt failing, the inserted delays are `[0, 2]`: the delay before
attempt 2 is 0 seconds, not `retry_delay * (2 - 1) = 2` as the claim
states. -/
theorem C2_counterexample :
    (fetch_url (fun _ => none) 2 3).delays = [0, 2] ∧
    (fetch_url (fun _ => none) 2 3).delays[0]? ≠ some (2 * (2 - 1)) := by
  decide

/-- Claim C2 as amended: when every attempt fails and `max_retries ≥ 1`, the
delays are `retry_delay * a` for `a = 0, ..., max_retries - 2` in order, so
the delay inserted before attempt `k` (for `2 ≤ k ≤ max_retries`) equals
`retry_delay * (k - 2)` seconds — in particular there is no delay before
attempt 1 and none before attempt 2 either. -/
theorem C2_backoff_shifted (transport : Nat → Option String) (d m : Int)
    (hT : ∀ n, transport n = none) (hm : 1 ≤ m) :
    (fetch_url transport d m).delays
        = (List.range (m.toNat - 1)).map (fun a : Nat => d * (a : Int)) ∧
    ∀ k : Nat, 2 ≤ k → k ≤ m.toNat →
      (fetch_url transport d m).delays[k - 2]? = some (d * ((k : Int) - 2)) := by
  rw [fetch_url_allfail transport d m hT hm]
  refine ⟨rfl, ?_⟩
  intro k hk2 hkm
  have hlt : k - 2 < m.toNat - 1 := by omega
  rw [List.getElem?_map, List.getElem?_range hlt]
  simp only [Option.map_some']
  congr 1
  rw [Nat.cast_sub hk2]
  norm_num

/-- Witness for C2's amended theorem at `retry_delay = 2`, `max_retries = 3`. -/
theorem C2_witness :
    (fetch_url (fun _ => none) 2 3).delays
        = (List.range ((3 : Int).toNat - 1)).map (fun a : Nat => (2 : Int) * (a : Int)) ∧
    ∀ k : Nat, 2 ≤ k → k ≤ (3 : Int).toNat →
      (fetch_url (fun _ => none) 2 3).delays[k - 2]? = some (2 * ((k : Int) - 2)) :=
  C2_backoff_shifted (fun _ => none) 2 3 (fun _ => rfl) (by decide)

/-- Claim C6: when the transport fails on every attempt and `max_retries ≥ 1`,
the Fetcher performs exactly `max_retries` attempts and only then reports
failure (`None`). -/
theorem C6_fetcher_attempts_all_retries (transport : Nat → Option String) (d m : Int)
    (hT : ∀ n, transport n = none) (hm : 1 ≤ m) :
    ((fetch_url transport d m).attempts : Int) = m ∧
    (fetch_url transport d m).result = none := by
  rw [fetch_url_allfail transport d m hT hm]
  refine ⟨?_, rfl⟩
  show ((m.toNat : Nat) : Int) = m
  omega

/-- Witness for C6 at `max_retries = 3`. -/
theorem C6_witness :
    ((fetch_url (fun _ => none) 2 3).attempts : Int) = 3 ∧
    (fetch_url (fun _ => none) 2 3).result = none :=
  C6_fetcher_attempts_all_retries (fun _ => none) 2 3 (fun _ => rfl) (by decide)

/-- Claim C10: a call with integer `max_retries ≤ 0` returns the failure
value without performing any network attempt (and, the type guards having
passed, without raising): Python's `range` of a non-positive integer is
empty and the function falls through to an implicit `None`. -/
theorem C10_nonpositive_retries_return_none (transport : Nat → Option String)
    (d m : Int) (hm : m ≤ 0) :
    fetch_url transport d m = ⟨none, 0, []⟩ := by
  have h0 : m.toNat = 0 := by omega
  rw [fetch_url, h0]
  rfl

/-- Witness for C10 at `max_retries = -1`, with a transport that would
succeed if it were ever consulted. -/
theorem C10_witness :
    fetch_url (fun _ => some "body") 2 (-1) = ⟨none, 0, []⟩ :=
  C10_nonpositive_retries_return_none (fun _ => some "body") 2 (-1) (by decide)

/-- Claim C4, counterexample: with `upper_bound = 5` and `has_results`
everywhere true, the probe's first (and only) fetch is of page 4, not of page
5 as the claim states — the loop decrements before its first fetch. -/
theorem C4_counterexample :
    (probe_pages (fun _ => true) 5).head? = some 4 ∧
    (probe_pages (fun _ => true) 5).head? ≠ some 5 := by
  decide

/-- Claim C4 as amended: the probe's first fetch is of page
`upper_bound - 1` (the loop decrements before fetching); if `has_results` is
true there it stops at once returning `upper_bound - 1`, and only if
`has_results` is false there does it decrement and repeat. -/
theorem C4_probe_first_fetch (h : Nat → Bool) (U : Nat) (hU : 1 ≤ U) :
    (probe_pages h U).head? = some (U - 1) ∧
    (h (U - 1) = true → probe_pages h U = [U - 1] ∧ find_max_page h U = U - 1) ∧
    (h (U - 1) = false → probe_pages h U = (U - 1) :: probe_pages h (U - 1)) := by
  obtain ⟨m, rfl⟩ : ∃ m, U = m + 1 := ⟨U - 1, by omega⟩
  simp only [Nat.add_sub_cancel]
  refine ⟨?_, fun hm => ?_, fun hm => ?_⟩
  · simp [probe_pages]
  · simp [probe_pages, find_max_page, hm]
  · simp [probe_pages, hm]

/-- Witness for C4's amended theorem at `upper_bound = 6` with boundary 3. -/
theorem C4_witness :
    (probe_pages (fun p => decide (p ≤ 3)) 6).head? = some (6 - 1) ∧
    ((fun p => decide (p ≤ 3)) (6 - 1) = true →
      probe_pages (fun p => decide (p ≤ 3)) 6 = [6 - 1] ∧
      find_max_page (fun p => decide (p ≤ 3)) 6 = 6 - 1) ∧
    ((fun p => decide (p ≤ 3)) (6 - 1) = false →
      probe_pages (fun p => decide (p ≤ 3)) 6
        = (6 - 1) :: probe_pages (fun p => decide (p ≤ 3)) (6 - 1)) :=
  C4_probe_first_fetch (fun p => decide (p ≤ 3)) 6 (by decide)

/-- Claim C5: for a monotonic (downward-closed) `has_results` and
`upper_bound` strictly above the true last page `P`, the Boundary Finder
returns exactly the `P` with `has_results P` true and `has_results (P+1)`
false, and returns 0 when `has_results` is false on every page in
`[1, upper_bound]`. -/
theorem C5_boundary_exact (h : Nat → Bool) (U P : Nat)
    (mono : ∀ a b : Nat, a ≤ b → h b = true → h a = true) :
    (h P = true → h (P + 1) = false → P < U → find_max_page h U = P) ∧
    ((∀ p : Nat, 1 ≤ p → p ≤ U → h p = false) → find_max_page h U = 0) :=
  ⟨fun hP hP1 hPU => find_max_page_exact h mono U P hP hP1 hPU,
   fun hall => find_max_page_none h U hall⟩

/-- Witness for C5: with results on pages up to 3 and `upper_bound = 6`, the
probe returns 3. -/
theorem C5_witness :
    find_max_page (fun p => decide (p ≤ 3)) 6 = 3 :=
  (C5_boundary_exact (fun p => decide (p ≤ 3)) 6 3
      (fun a b hab hb => by
        simp only [decide_eq_true_eq] at hb ⊢
        omega)).1 (by decide) (by decide) (by decide)

/-- Claim C1, evaluated at a failing input: with a cached log whose maximum
`source_page` is 5 and a boundary of 7, replay computes resume point 5, yet
the main loop fetches pages 1 through 7 — `for page_num in range(1,
max_page + 1)` (line 219) shadows the resume point computed at line 209, so
iteration starts from page 1, not from the resume point. -/
theorem C1_resume_point_ignored :
    resume_point [⟨"a", 3⟩, ⟨"b", 5⟩] = 5 ∧
    (run_main [⟨"a", 3⟩, ⟨"b", 5⟩] (fun _ => some []) (fun _ _ => none) 7).pages_fetched
      = [1, 2, 3, 4, 5, 6, 7] := by
  constructor
  · rfl
  · rfl

/-- Claim C3, counterexample: an append of a checkpoint record to a
freshly-opened handle returns with stable storage still empty and the record
held in the in-process buffer, so the append is not flushed to stable
storage before returning. -/
theorem C3_counterexample :
    (checkpoint_append ⟨[], []⟩ ⟨"r", 1⟩).storage = [] ∧
    (checkpoint_append ⟨[], []⟩ ⟨"r", 1⟩).buffer = [⟨"r", 1⟩] :=
  ⟨rfl, rfl⟩

/-- Claim C3 as amended: appends of checkpoint records are buffered in
process — after any sequence of appends, stable storage is unchanged, and
the appended records reach stable storage (in order) only when the handle is
closed at the end of the `with` block. -/
theorem C3_appends_buffered_until_close (f : AppendFile FcDict) (recs : List FcDict) :
    (recs.foldl checkpoint_append f).storage = f.storage ∧
    ((recs.foldl checkpoint_append f).close).storage = f.storage ++ (f.buffer ++ recs) := by
  rw [foldl_checkpoint_append]
  exact ⟨rfl, by simp [AppendFile.close, AppendFile.flush]⟩

/-- Claim C9: the Compactor deduplicates by full structural equality and
preserves first-occurrence order — `drop_duplicates` computes exactly the
subsequence of first occurrences, and on `[A, B, A, C]` (here `[0, 1, 0, 2]`)
yields `[A, B, C]`. -/
theorem C9_compactor_stable_dedup :
    (∀ (α : Type) [DecidableEq α] (l : List α), drop_duplicates l = firstOccurrences l) ∧
    drop_duplicates [0, 1, 0, 2] = [0, 1, 2] := by
  constructor
  · intro α _ l
    rw [drop_duplicates, dedup_keep_first_eq l []]
    congr 1
    simp
  · decide

/-- Claim C7: on a page of five links of which exactly one fails (detail
fetch exhausted or extraction failed), the run appends four checkpoint
records and one missed link, and the loop proceeds to fetch the next
page. -/
theorem C7_per_link_failure_isolated (listing : Nat → Option (List String))
    (proc : Nat → String → Option String) (page next : Nat) (rest : List Nat)
    (links : List String) (st : RunState)
    (hpage : listing page = some links)
    (hnext : (listing next).isSome = true)
    (hlen : links.length = 5)
    (hfail : (links.countP fun l => (proc page l).isNone) = 1) :
    (links.foldl (process_link proc page) st).fact_checks.length
        = st.fact_checks.length + 4 ∧
    (links.foldl (process_link proc page) st).missed.length
        = st.missed.length + 1 ∧
    next ∈ (run_pages listing proc st (page :: next :: rest)).pages_fetched := by
  obtain ⟨i1, i2, i3, _⟩ := foldl_process_link proc page links st
  have hsum := countP_isSome_isNone proc page links
  have hsucc : (links.countP fun l => (proc page l).isSome) = 4 := by omega
  refine ⟨by rw [i1, hsucc], by rw [i2, hfail], ?_⟩
  rw [run_pages_cons]
  simp only [hpage]
  obtain ⟨links2, hn⟩ := Option.isSome_iff_exists.mp hnext
  rw [run_pages_cons]
  simp only [hn]
  apply run_pages_fetched_mono
  rw [(foldl_process_link proc next links2 _).2.2.1]
  exact List.mem_append_right _ (List.mem_singleton_self next)

/-- Witness for C7: page 1 of `ex5Listing` has five links of which exactly
one (link "c") fails under `ex5Proc`; four records and one missed link are
produced and page 2 is still fetched. -/
theorem C7_witness :
    ((["a", "b", "c", "d", "e"] : List String).foldl
        (process_link ex5Proc 1) exSt).fact_checks.length
      = exSt.fact_checks.length + 4 ∧
    ((["a", "b", "c", "d", "e"] : List String).foldl
        (process_link ex5Proc 1) exSt).missed.length
      = exSt.missed.length + 1 ∧
    2 ∈ (run_pages ex5Listing ex5Proc exSt [1, 2]).pages_fetched :=
  C7_per_link_failure_isolated ex5Listing ex5Proc 1 2 [] ["a", "b", "c", "d", "e"] exSt
    rfl rfl (by decide) (by decide)

/-- Claim C8: if the fetch of listing page `p` fails after retries while all
earlier pages were reachable, the main loop stops at `p` (no further page is
fetched), the run does not lose the work done so far, and the compacted
final dataset is still written from everything accumulated — the cache plus
the records scraped from pages before `p`. -/
theorem C8_listing_failure_stops_run (cache : List FcDict)
    (listing : Nat → Option (List String)) (proc : Nat → String → Option String)
    (M p : Nat) (hp : listing p = none) (hp1 : 1 ≤ p) (hpM : p ≤ M)
    (hbefore : ∀ q : Nat, 1 ≤ q → q < p → (listing q).isSome = true) :
    (run_main cache listing proc M).pages_fetched = List.range' 1 p ∧
    (run_main cache listing proc M).fact_checks
        = (run_main cache listing proc (p - 1)).fact_checks ∧
    (run_main cache listing proc M).missed
        = (run_main cache listing proc (p - 1)).missed ∧
    (∃ fresh, (run_main cache listing proc M).fact_checks = cache ++ fresh) ∧
    run_output cache listing proc M
        = drop_duplicates (run_main cache listing proc (p - 1)).fact_checks := by
  have hmem : ∀ q ∈ List.range' 1 (p - 1), (listing q).isSome = true := by
    intro q hq
    rw [List.mem_range'_1] at hq
    exact hbefore q hq.1 (by omega)
  have hsplit : List.range' 1 M = List.range' 1 (p - 1) ++ List.range' p (M - p + 1) := by
    have h1 : List.range' 1 (p - 1) ++ List.range' (1 + (p - 1)) (M - p + 1)
        = List.range' 1 ((M - p + 1) + (p - 1)) := List.range'_append_1 1 (p - 1) (M - p + 1)
    have h2 : 1 + (p - 1) = p := by omega
    have h3 : (M - p + 1) + (p - 1) = M := by omega
    rw [h2, h3] at h1
    exact h1.symm
  have hkey : run_main cache listing proc M
      = { run_main cache listing proc (p - 1) with
          pages_fetched := (run_main cache listing proc (p - 1)).pages_fetched ++ [p] } := by
    rw [run_main, hsplit, run_pages_append listing proc _ _ _ hmem, List.range'_succ,
      run_pages_break listing proc _ p _ hp]
    rfl
  refine ⟨?_, by rw [hkey], by rw [hkey], ?_, by rw [run_output, hkey]⟩
  · rw [hkey]
    show (run_main cache listing proc (p - 1)).pages_fetched ++ [p] = List.range' 1 p
    rw [run_main, run_pages_all_some listing proc _ _ hmem]
    show ([] : List Nat) ++ List.range' 1 (p - 1) ++ [p] = List.range' 1 p
    rw [List.nil_append]
    have h4 : [p] = List.range' (1 + (p - 1)) 1 := by
      rw [List.range'_one]
      congr 1
      omega
    rw [h4, List.range'_append_1]
    congr 1
    omega
  · obtain ⟨t, ht⟩ := run_pages_fact_checks_extend listing proc (List.range' 1 M)
      ⟨cache, ⟨[], []⟩, [], []⟩
    exact ⟨t, ht⟩

/-- Witness for C8: `exListing` fails on page 2 with boundary 4; the run
fetches exactly pages 1 and 2 and its output equals the compaction of the
one-page run. -/
theorem C8_witness :
    (run_main [⟨"c", 9⟩] exListing exProc 4).pages_fetched = List.range' 1 2 ∧
    (run_main [⟨"c", 9⟩] exListing exProc 4).fact_checks
        = (run_main [⟨"c", 9⟩] exListing exProc (2 - 1)).fact_checks ∧
    (run_main [⟨"c", 9⟩] exListing exProc 4).missed
        = (run_main [⟨"c", 9⟩] exListing exProc (2 - 1)).missed ∧
    (∃ fresh, (run_main [⟨"c", 9⟩] exListing exProc 4).fact_checks = [⟨"c", 9⟩] ++ fresh) ∧
    run_output [⟨"c", 9⟩] exListing exProc 4
        = drop_duplicates (run_main [⟨"c", 9⟩] exListing exProc (2 - 1)).fact_checks :=
  C8_listing_failure_stops_run [⟨"c", 9⟩] exListing exProc 4 2 rfl (by decide) (by decide)
    (by
      intro q h1 h2
      have hq : q = 1 := by omega
      subst hq
      rfl)

end Politifact
